import Mathlib

/-!
Shallow embedding of the `vsic` chat server (Go sources `libvsic/libvsic.go`
and `cmd/vsicd/main.go`) and proofs about its line transport, protocol codec,
client registry, connection handler and broadcast engine.

Modelling conventions:
* Go strings are modelled as `List Char`; Go's `len(s)` counts UTF-8 bytes,
  modelled by `byteLen`.
* Go `int` / `int64` / `time.Duration` values are modelled as `Int`
  (durations and timestamps in nanoseconds, as in Go).
* Go maps are modelled as functions (`List Char → Option _` / `List Char → Int`);
  a missing `int` map key reads as `0`, exactly as in Go.
* The 2 random bytes drawn by `crypto/rand` in `RandomSuffix` are passed in as
  an explicit `Nat` parameter `r` (the big-endian `uint16` value, `0 ≤ r < 65536`).
-/

/-! ## Line transport (libvsic.go `ReadLine` / `WriteLine`) -/

/-- Transport-level errors of the line transport: `eof` stands for any error
returned by `bufio.ReadString` (EOF / timeout), `tooLarge` for the
"message too big" error and `invalidFraming` for "invalid control chars". -/
inductive TErr
  | eof
  | tooLarge
  | invalidFraming
deriving DecidableEq, Repr

/-- Number of bytes of one character in UTF-8; Go's `len` on a string sums these. -/
def charBytes (c : Char) : Nat :=
  if c.val < 0x80 then 1
  else if c.val < 0x800 then 2
  else if c.val < 0x10000 then 3
  else 4

/-- Go `len(s)` for a string: its UTF-8 byte length. -/
def byteLen (s : List Char) : Nat :=
  (s.map charBytes).sum

/-- Model of `bufio.Reader.ReadString('\n')`: consume the stream up to and
including the first newline, returning that chunk and the rest; `none` when no
newline arrives (Go returns a read error there: EOF or deadline timeout). -/
def readStringNL : List Char → Option (List Char × List Char)
  | [] => none
  | c :: cs =>
    if c = '\n' then some ([c], cs)
    else
      match readStringNL cs with
      | none => none
      | some (l, r) => some (c :: l, r)

/-- Go `strings.TrimRight(line, "\r\n")`: drop trailing `'\r'` and `'\n'`. -/
def trimRightCRLF (l : List Char) : List Char :=
  (l.reverse.dropWhile (fun c => c = '\n' || c = '\r')).reverse

/-- Model of `Conn.ReadLine` from libvsic.go, on the stream contents: read one chunk up
to the newline, reject it when longer than `maxMsgSize` bytes (the newline
included, since Go checks `len(line)` before trimming), trim trailing CR/LF,
and reject any remaining embedded `'\n'`/`'\r'`. -/
def ReadLine (maxMsgSize : Nat) (stream : List Char) : Except TErr (List Char) :=
  match readStringNL stream with
  | none => .error .eof
  | some (line, _) =>
    if byteLen line > maxMsgSize then .error .tooLarge
    else
      let t := trimRightCRLF line
      if t.contains '\n' || t.contains '\r' then .error .invalidFraming
      else .ok t

/-- Model of `Conn.WriteLine` from libvsic.go: reject strings longer than `maxMsgSize`
bytes or containing `'\n'`/`'\r'`, otherwise emit the string plus a newline. -/
def WriteLine (maxMsgSize : Nat) (s : List Char) : Except TErr (List Char) :=
  if byteLen s > maxMsgSize then .error .tooLarge
  else if s.contains '\n' || s.contains '\r' then .error .invalidFraming
  else .ok (s ++ ['\n'])

/-- Write a line and read it back from the produced wire bytes. -/
def roundTrip (maxMsgSize : Nat) (s : List Char) : Except TErr (List Char) :=
  (WriteLine maxMsgSize s).bind (ReadLine maxMsgSize)

/-! ## Protocol codec (libvsic.go `ParseCommand`, `ValidNick`) -/

/-- The Latin-1 part of Go's `unicode.IsSpace` (space, `\t`, `\n`, `\v`, `\f`,
`\r`, NEL, NBSP); protocol lines are newline-free ASCII so the higher Unicode
space classes never occur here. -/
def isGoSpace (c : Char) : Bool :=
  c = ' ' || c = '\t' || c = '\n' || c = '\x0b' || c = '\x0c' || c = '\r' ||
    c = '\x85' || c = '\xa0'

/-- Go `strings.TrimSpace`: drop leading and trailing whitespace. -/
def trimSpace (s : List Char) : List Char :=
  ((s.dropWhile isGoSpace).reverse.dropWhile isGoSpace).reverse

/-- Function `ParseCommand` from libvsic.go: split at the first space into
`(command, argument)`, the argument trimmed; without a space the whole line is
the command and the argument is empty. -/
def ParseCommand (line : List Char) : List Char × List Char :=
  if line.contains ' ' then
    (line.takeWhile (fun c => c ≠ ' '),
     trimSpace ((line.dropWhile (fun c => c ≠ ' ')).drop 1))
  else (line, [])

/-- Character class accepted by `ValidNick`: ASCII letters, digits, underscore. -/
def nickChar (c : Char) : Bool :=
  ('a' ≤ c && c ≤ 'z') || ('A' ≤ c && c ≤ 'Z') || ('0' ≤ c && c ≤ '9') || c = '_'

/-- Function `ValidNick` from libvsic.go: byte length between 3 and 20 and every rune an
ASCII letter, digit or underscore. -/
def ValidNick (n : List Char) : Bool :=
  if byteLen n < 3 || byteLen n > 20 then false
  else n.all nickChar

/-! ## Nickname suffix (libvsic.go `RandomSuffix`, `pad4`, `itoa`) -/

/-- Go `strings.TrimPrefix`: drop `p` from the front of `s` when `s` starts
with it, otherwise return `s` unchanged. -/
def trimPref (s p : List Char) : List Char :=
  if p.isPrefixOf s then s.drop p.length else s

/-- Model of `time.Unix(int64(n), 0).UTC().Format("0000")` from `itoa`: the
layout string `"0000"` contains no reference-time element (numeric elements of
Go layouts begin with one of `01`–`06` or `002`), so `Format` renders the
layout literally and the result is `"0000"` for every time value. -/
def format0000 (_n : Int) : List Char :=
  "0000".data

/-- Function `itoa` from libvsic.go: format the Unix time `n` with layout `"0000"`, trim
a `"1970"` prefix, then trim an empty prefix. Since `format0000` is constantly
`"0000"`, which does not start with `"1970"`, this returns `"0000"` for every `n`. -/
def itoa (n : Int) : List Char :=
  trimPref (trimPref (format0000 n) "1970".data) "".data

/-- Function `pad4` from libvsic.go: left-pad `itoa n` with zeros according to the
magnitude of `n`. -/
def pad4 (n : Int) : List Char :=
  if n < 10 then "000".data ++ itoa n
  else if n < 100 then "00".data ++ itoa n
  else if n < 1000 then "0".data ++ itoa n
  else itoa n

/-- Function `RandomSuffix` from libvsic.go, with the two random bytes passed in as the
big-endian `uint16` value `r`: an underscore followed by `pad4 (r % 10000)`. -/
def RandomSuffix (r : Nat) : List Char :=
  '_' :: pad4 ((r % 10000 : Nat) : Int)

/-! ## Server data model (main.go) -/

/-- Capacity of a client's outbound queue: `make(chan string, 16)` in `handle`. -/
def sendCap : Nat := 16

/-- A connected client (main.go `Client`): nickname (set on the wrapped
connection after the handshake, empty before), source address, the contents of
its bounded `Send` channel, and the timestamp (ns) of its last accepted
message. -/
structure ClientM where
  nick : List Char
  ip : List Char
  send : List (List Char)
  lastMsg : Int
deriving DecidableEq, Repr

/-- The registry portion of main.go `Server`: nickname → client and source
address → connection count, both Go maps (missing count keys read as 0). -/
structure Registry where
  clients : List Char → Option ClientM
  ipCounts : List Char → Int

/-! ## Broadcast engine (main.go `broadcast`) -/

/-- Nonblocking send on a bounded channel (`select { case c.Send <- msg:
default: }`): append when the queue holds fewer than `sendCap` messages,
otherwise drop. -/
def tryEnqueue (q : List (List Char)) (msg : List Char) : List (List Char) :=
  if q.length < sendCap then q ++ [msg] else q

/-- State touched by `broadcast`: the snapshot of registered clients (the
values of `s.clients` under the read lock) and the total-message counter. -/
structure BState where
  clients : List ClientM
  totalMsg : Int
deriving Repr

/-- Function `broadcast` from main.go: try a nonblocking enqueue of `msg` on every
registered client's queue, then increment the total-message counter once. -/
def broadcast (st : BState) (msg : List Char) : BState :=
  { clients := st.clients.map (fun c => { c with send := tryEnqueue c.send msg }),
    totalMsg := st.totalMsg + 1 }

/-! ## Rate limiting (main.go `handle`, `MSG` case, and `max`) -/

/-- The two-argument `max` helper at the bottom of main.go. -/
def goMax (a b : Int) : Int :=
  if a > b then a else b

/-- Value of `time.Second` in nanoseconds. -/
def nsPerSec : Int := 1000000000

/-- The per-client message interval `time.Second / time.Duration(max(1,
s.cfg.MaxMsgsPerSec))` (integer division of nanosecond durations). -/
def msgInterval (maxMsgsPerSec : Int) : Int :=
  nsPerSec / goMax 1 maxMsgsPerSec

/-- Render the broadcast relay line `"MSG " + nick + ": " + arg`. -/
def msgLine (nick text : List Char) : List Char :=
  "MSG ".data ++ nick ++ ": ".data ++ text

/-- The `MSG` case of the `Active` loop in `handle`: when less than
`msgInterval` has elapsed since the client's last accepted message, `continue`
(drop, nothing changes); otherwise stamp `lastMsg` with the current time and
broadcast `MSG <nick>: <text>`. Returns the updated timestamp, the updated
broadcast state and whether the message was accepted. -/
def msgStep (maxMsgsPerSec : Int) (now lastMsg : Int) (st : BState)
    (nick text : List Char) : Int × BState × Bool :=
  if now - lastMsg < msgInterval maxMsgsPerSec then (lastMsg, st, false)
  else (now, broadcast st (msgLine nick text), true)

/-! ## Admission control (main.go `handle` lines 192–199, `disconnect`) -/

/-- The admission check at the top of `handle`: under the lock, when the
address's count has reached `MaxConnsPerIP` the connection is closed at once
(no line is ever written); otherwise the count is incremented and the handler
proceeds. Returns the new counts and whether the reservation succeeded. -/
def tryReserveSlot (counts : List Char → Int) (maxPer : Int) (a : List Char) :
    (List Char → Int) × Bool :=
  if counts a ≥ maxPer then (counts, false)
  else (fun k => if k = a then counts k + 1 else counts k, true)

/-- The slot release inside `disconnect`: `s.ipCounts[c.IP]--`, an unguarded
decrement (a missing key reads as 0 and the decrement stores −1). -/
def releaseSlot (counts : List Char → Int) (a : List Char) : List Char → Int :=
  fun k => if k = a then counts k - 1 else counts k

/-- Function `disconnect` from main.go, on the registry: delete the entry keyed by the
client's nickname and decrement its address's count (closing the connection
and the `Send` channel have no registry effect). -/
def disconnect (reg : Registry) (c : ClientM) : Registry :=
  { clients := fun k => if k = c.nick then none else reg.clients k,
    ipCounts := releaseSlot reg.ipCounts c.ip }

/-- Traces of registry slot operations with matched reserve/release pairs:
`held a` counts the connections from `a` that hold a successfully reserved slot,
and a release is only taken by a connection that holds one. -/
inductive SlotReach (maxPer : Int) : (List Char → Int) → (List Char → Nat) → Prop
  | init : SlotReach maxPer (fun _ => 0) (fun _ => 0)
  | reserve {counts held} (a : List Char) :
      SlotReach maxPer counts held →
      SlotReach maxPer (tryReserveSlot counts maxPer a).1
        (fun k =>
          if (tryReserveSlot counts maxPer a).2 ∧ k = a then held k + 1 else held k)
  | release {counts held} (a : List Char) :
      SlotReach maxPer counts held → 0 < held a →
      SlotReach maxPer (releaseSlot counts a)
        (fun k => if k = a then held k - 1 else held k)

/-! ## Nickname uniquification and handshake (main.go `uniqueNick`, `handle`) -/

/-- Function `uniqueNick` from main.go: when `n` is not a registry key return it
unchanged, otherwise append `RandomSuffix` (the suffixed result is not checked
against the registry again). -/
def uniqueNick (clients : List Char → Option ClientM) (n : List Char) (r : Nat) :
    List Char :=
  match clients n with
  | none => n
  | some _ => n ++ RandomSuffix r

/-- Split a string at newlines, for `strings.Split(s.cfg.Motd, "\n")`. -/
def splitNL : List Char → List (List Char)
  | [] => [[]]
  | c :: cs =>
    match splitNL cs with
    | [] => [[c]]
    | h :: t => if c = '\n' then [] :: h :: t else (c :: h) :: t

/-- The `MOTD` lines sent after a successful handshake: nothing when the motd
is empty, otherwise one `MOTD <line>` per non-empty line of the motd. -/
def motdOutputs (motd : List Char) : List (List Char) :=
  if motd = [] then []
  else ((splitNL motd).filter (fun l => l ≠ [])).map (fun l => "MOTD ".data ++ l)

/-- Outcome of the `AwaitingHello` stage of `handle`: the lines written, whether
the connection is closed, and the registered final nickname on success. -/
structure HsResult where
  outputs : List (List Char)
  closed : Bool
  registered : Option (List Char)
deriving DecidableEq, Repr

/-- The `AwaitingHello` stage of `handle` (main.go lines 214–241): on a read
error, disconnect without writing; when the first line is not `HELLO` with a
valid nickname, write one `ERROR 100` line and disconnect; otherwise uniquify
the nickname, reply `HELLO <finalNick>` and the motd lines, and register. -/
def awaitHello (clients : List Char → Option ClientM) (motd : List Char)
    (r : Nat) (readResult : Except TErr (List Char)) : HsResult :=
  match readResult with
  | .error _ => ⟨[], true, none⟩
  | .ok line =>
    let p := ParseCommand line
    if p.1 ≠ "HELLO".data ∨ ¬ ValidNick p.2 then
      ⟨["ERROR 100".data], true, none⟩
    else
      let nick := uniqueNick clients p.2 r
      ⟨("HELLO ".data ++ nick) :: motdOutputs motd, false, some nick⟩

/-! ## Concrete states used by the closed theorems below -/

/-- A registry in which both `alice` and `alice_0000` are registered (the
latter is a perfectly valid nickname a client can request directly). -/
def clientsAliceBoth : List Char → Option ClientM := fun k =>
  if k = "alice".data ∨ k = "alice_0000".data then some ⟨k, "9.9.9.9".data, [], 0⟩
  else none

/-- A registry in which only `bob` is registered. -/
def clientsBobOnly : List Char → Option ClientM := fun k =>
  if k = "bob".data then some ⟨k, "9.9.9.9".data, [], 0⟩ else none

/-- A registered client with an empty outbound queue. -/
def bClient0 : ClientM := ⟨"bob".data, "9.9.9.9".data, [], 0⟩

/-- A broadcast state with the single client `bob` and no messages counted. -/
def bState0 : BState := ⟨[bClient0], 0⟩

/-- A client whose handshake never completed: its nickname is still empty. -/
def clientGhost : ClientM := ⟨[], "1.2.3.4".data, [], 0⟩

/-- The empty registry: no clients, every address count 0. -/
def regZero : Registry := ⟨fun _ => none, fun _ => 0⟩

/-- A registry with `bob` registered and every address count 1. -/
def regOne : Registry := ⟨clientsBobOnly, fun _ => 1⟩

/-- The all-zero address counts (initial `ipCounts`). -/
def zeroCounts : List Char → Int := fun _ => 0

/-- The all-zero outstanding-reservation ghost map. -/
def zeroHeld : List Char → Nat := fun _ => 0

/-! ## Helper lemmas -/

theorem contains_eq_false_of_not_mem {c : Char} {x : List Char} (h : c ∉ x) :
    x.contains c = false := by
  simpa using h

theorem contains_eq_true_of_mem {c : Char} {x : List Char} (h : c ∈ x) :
    x.contains c = true := by
  simpa using h

theorem readStringNL_append_nl {x : List Char} (hx : '\n' ∉ x) :
    readStringNL (x ++ ['\n']) = some (x ++ ['\n'], []) := by
  induction x with
  | nil => simp [readStringNL]
  | cons c cs ih =>
    have hc : ¬ c = '\n' := fun h => hx (by simp [h])
    have hcs : '\n' ∉ cs := fun h => hx (List.mem_cons_of_mem _ h)
    simp [readStringNL, hc, ih hcs]

theorem dropWhile_eq_self_of_all {p : Char → Bool} {l : List Char}
    (h : ∀ c ∈ l, p c = false) : l.dropWhile p = l := by
  cases l with
  | nil => rfl
  | cons a t => simp [List.dropWhile_cons, h a (List.mem_cons_self a t)]

theorem trimRightCRLF_append_nl {x : List Char} (h1 : '\n' ∉ x) (h2 : '\r' ∉ x) :
    trimRightCRLF (x ++ ['\n']) = x := by
  have hall : ∀ c ∈ x.reverse, (c = '\n' || c = '\r') = (false : Bool) := by
    intro c hc
    rw [List.mem_reverse] at hc
    have hc1 : ¬ c = '\n' := fun h => h1 (h ▸ hc)
    have hc2 : ¬ c = '\r' := fun h => h2 (h ▸ hc)
    simp [hc1, hc2]
  unfold trimRightCRLF
  rw [List.reverse_append]
  simp only [List.reverse_cons, List.reverse_nil, List.nil_append, List.singleton_append,
    List.dropWhile_cons]
  simp only [decide_True, Bool.true_or, if_true]
  rw [dropWhile_eq_self_of_all hall, List.reverse_reverse]

theorem byteLen_append (a b : List Char) : byteLen (a ++ b) = byteLen a + byteLen b := by
  simp [byteLen]

theorem writeLine_ok {maxB : Nat} {x : List Char} (h1 : '\n' ∉ x) (h2 : '\r' ∉ x)
    (h3 : byteLen x ≤ maxB) : WriteLine maxB x = .ok (x ++ ['\n']) := by
  simp [WriteLine, contains_eq_false_of_not_mem h1, contains_eq_false_of_not_mem h2,
    Nat.not_lt.mpr h3]
  exact ⟨h1, h2⟩

/-! ## Claim theorems -/

/-- Claim C2 (code bug evaluation): `RandomSuffix` never yields `"_"` followed
by the four zero-padded decimal digits of the drawn value. `itoa n` evaluates
to `"0000"` for every `n` (the Go time layout `"0000"` is rendered literally
and trimming `"1970"` does nothing), so for `r = 5` the suffix is the
8-character `"_0000000"`, not `"_0005"`, and for `r = 1234` it is `"_0000"`,
not `"_1234"`. -/
theorem randomSuffix_never_digits :
    (∀ n : Int, itoa n = "0000".data)
    ∧ RandomSuffix 5 = "_0000000".data
    ∧ RandomSuffix 5 ≠ "_0005".data
    ∧ RandomSuffix 1234 = "_0000".data
    ∧ RandomSuffix 1234 ≠ "_1234".data :=
  ⟨fun _ => rfl, by decide, by decide, by decide, by decide⟩

/-- Claim C1 (counterexample): with `alice` and `alice_0000` both registered,
`uniqueNick "alice"` with random draw 1000 returns `alice_0000`, which is
equal to a key currently in the registry — the suffixed nick is not re-checked
and no `NickExhausted` failure exists. -/
theorem uniqueNick_collision_cx :
    (clientsAliceBoth "alice".data).isSome = true
    ∧ uniqueNick clientsAliceBoth "alice".data 1000 = "alice_0000".data
    ∧ (clientsAliceBoth (uniqueNick clientsAliceBoth "alice".data 1000)).isSome = true := by
  refine ⟨by decide, by decide, by decide⟩

/-- Claim C1 (amended): for a registered nickname `n`, `uniqueNick` returns
`n` with the random suffix appended, which always differs from `n` itself (but
is not re-checked against the other registry keys); for an unregistered `n` it
returns `n` unchanged. -/
theorem uniqueNick_spec (clients : List Char → Option ClientM) (n : List Char) (r : Nat) :
    (clients n = none → uniqueNick clients n r = n)
    ∧ ((clients n).isSome = true →
        uniqueNick clients n r = n ++ RandomSuffix r ∧ uniqueNick clients n r ≠ n) := by
  constructor
  · intro h; simp [uniqueNick, h]
  · intro h
    obtain ⟨c, hc⟩ := Option.isSome_iff_exists.mp h
    refine ⟨by simp [uniqueNick, hc], ?_⟩
    simp only [uniqueNick, hc]
    intro heq
    have := congrArg List.length heq
    simp [RandomSuffix] at this

/-- Witness for `uniqueNick_spec` at the registry holding only `bob`. -/
theorem uniqueNick_spec_witness :
    uniqueNick clientsBobOnly "bob".data 1000 = "bob".data ++ RandomSuffix 1000
    ∧ uniqueNick clientsBobOnly "bob".data 1000 ≠ "bob".data :=
  (uniqueNick_spec clientsBobOnly "bob".data 1000).2 (by decide)

/-- Claim C5 (counterexample): with `max_msg_size = 4`, the 4-byte string
`aaaa` (no control characters, within the size bound) is accepted by
`WriteLine`, but reading it back fails with `TooLarge`, because `ReadLine`
counts the appended newline against the bound — the round-trip does not return
`x` for every in-bound `x`, and the two sides do not fail identically. -/
theorem roundTrip_boundary_cx :
    WriteLine 4 "aaaa".data = .ok "aaaa\n".data
    ∧ roundTrip 4 "aaaa".data = .error .tooLarge := by
  exact ⟨rfl, rfl⟩

/-- Claim C5 (amended): for `x` without `'\n'`/`'\r'` and with strictly fewer
than `max_msg_size` bytes, writing with `WriteLine` and reading back with
`ReadLine` returns `x` unchanged; `WriteLine` fails with `TooLarge` beyond the
bound and with `InvalidFraming` on embedded `'\n'`/`'\r'`; but at exactly
`max_msg_size` bytes `WriteLine` succeeds while the read back fails with
`TooLarge`, since `ReadLine` checks the line length with its newline. -/
theorem lineTransport_roundtrip (maxB : Nat) (x : List Char) :
    ('\n' ∉ x → '\r' ∉ x → byteLen x < maxB → roundTrip maxB x = .ok x)
    ∧ (maxB < byteLen x → WriteLine maxB x = .error .tooLarge)
    ∧ (('\n' ∈ x ∨ '\r' ∈ x) → byteLen x ≤ maxB →
        WriteLine maxB x = .error .invalidFraming)
    ∧ ('\n' ∉ x → '\r' ∉ x → byteLen x = maxB →
        WriteLine maxB x = .ok (x ++ ['\n'])
        ∧ ReadLine maxB (x ++ ['\n']) = .error .tooLarge) := by
  refine ⟨?_, ?_, ?_, ?_⟩
  · intro h1 h2 h3
    have hw := writeLine_ok h1 h2 (Nat.le_of_lt h3)
    have hsize : ¬ byteLen (x ++ ['\n']) > maxB := by
      rw [byteLen_append]
      show ¬ byteLen x + 1 > maxB
      omega
    have ht := trimRightCRLF_append_nl h1 h2
    simp [roundTrip, hw, Except.bind, ReadLine, readStringNL_append_nl h1, hsize, ht,
      contains_eq_false_of_not_mem h1, contains_eq_false_of_not_mem h2]
    exact ⟨h1, h2⟩
  · intro h
    simp [WriteLine, h]
  · intro hmem hle
    have hc : (x.contains '\n' || x.contains '\r') = true := by
      rcases hmem with h | h
      · simp [contains_eq_true_of_mem h]
        exact Or.inl h
      · simp [contains_eq_true_of_mem h]
        exact Or.inr h
    unfold WriteLine
    rw [if_neg (Nat.not_lt.mpr hle), if_pos hc]
  · intro h1 h2 h3
    refine ⟨writeLine_ok h1 h2 (Nat.le_of_eq h3), ?_⟩
    have hsize : byteLen (x ++ ['\n']) > maxB := by
      rw [byteLen_append]
      show byteLen x + 1 > maxB
      omega
    simp [ReadLine, readStringNL_append_nl h1, hsize]

/-- Witness for `lineTransport_roundtrip`: the 2-byte string `hi` round-trips
unchanged through a transport with `max_msg_size = 8`. -/
theorem lineTransport_roundtrip_witness :
    roundTrip 8 "hi".data = .ok "hi".data :=
  (lineTransport_roundtrip 8 "hi".data).1 (by decide) (by decide) (by decide)

/-- Claim C3: `broadcast` leaves the set of registered clients intact (same
length, same nicknames, addresses and timestamps), appends the message to the
queue of every client whose queue holds fewer than `sendCap` messages, leaves
a full client's queue exactly unchanged, and increments the total-message
counter by exactly one per call, regardless of recipients or drops. -/
theorem broadcast_delivery (st : BState) (msg : List Char) (i : Nat) (c : ClientM)
    (hc : st.clients[i]? = some c) :
    (broadcast st msg).totalMsg = st.totalMsg + 1
    ∧ (broadcast st msg).clients.length = st.clients.length
    ∧ ∃ c', (broadcast st msg).clients[i]? = some c'
        ∧ c'.nick = c.nick ∧ c'.ip = c.ip ∧ c'.lastMsg = c.lastMsg
        ∧ (c.send.length < sendCap → c'.send = c.send ++ [msg])
        ∧ (sendCap ≤ c.send.length → c'.send = c.send) := by
  refine ⟨rfl, by simp [broadcast], ?_⟩
  refine ⟨{ c with send := tryEnqueue c.send msg }, ?_, rfl, rfl, rfl, ?_, ?_⟩
  · simp [broadcast, List.getElem?_map, hc]
  · intro h; simp [tryEnqueue, h]
  · intro h; simp [tryEnqueue, Nat.not_lt.mpr h]

/-- Witness for `broadcast_delivery`: broadcasting to the one-client state
`bState0` bumps the counter from 0 to 1. -/
theorem broadcast_delivery_witness :
    (broadcast bState0 "yo".data).totalMsg = bState0.totalMsg + 1 :=
  (broadcast_delivery bState0 "yo".data 0 bClient0 rfl).1

/-- Claim C4: a `MSG` from an `Active` client is accepted (timestamp stamped to
`now`, relay broadcast, counter bumped) exactly when at least
`1/max(1, max_msgs_per_sec)` seconds (integer nanoseconds) have elapsed since
the client's previous accepted message; an earlier `MSG` leaves the timestamp,
every queue and the counter exactly as they were, with no error line. -/
theorem msg_rate_limit (rate now lastMsg : Int) (st : BState) (nick text : List Char) :
    ((msgStep rate now lastMsg st nick text).2.2 = true ↔
      msgInterval rate ≤ now - lastMsg)
    ∧ ((msgStep rate now lastMsg st nick text).2.2 = false →
        msgStep rate now lastMsg st nick text = (lastMsg, st, false))
    ∧ ((msgStep rate now lastMsg st nick text).2.2 = true →
        (msgStep rate now lastMsg st nick text).1 = now
        ∧ (msgStep rate now lastMsg st nick text).2.1.totalMsg = st.totalMsg + 1
        ∧ (msgStep rate now lastMsg st nick text).2.1 =
            broadcast st (msgLine nick text)) := by
  by_cases h : now - lastMsg < msgInterval rate
  · refine ⟨?_, fun _ => by simp [msgStep, h], fun hacc => ?_⟩
    · simp [msgStep, h]
    · simp [msgStep, h] at hacc
  · refine ⟨?_, fun hacc => ?_, fun _ => ?_⟩
    · simp [msgStep, h]
      omega
    · simp [msgStep, h] at hacc
    · exact ⟨by simp [msgStep, h], by simp [msgStep, h, broadcast], by simp [msgStep, h]⟩

/-- Witness for `msg_rate_limit`: with the default rate of 1 message per
second, a message arriving half a second after the previous accepted one is
dropped with no state change. -/
theorem msg_rate_limit_witness :
    msgStep 1 1500000000 1000000000 bState0 "bob".data "hi".data
      = (1000000000, bState0, false) :=
  (msg_rate_limit 1 1500000000 1000000000 bState0 "bob".data "hi".data).2.1 rfl

/-- Claim C9: the divisor of the rate-limit computation is `max(1,
max_msgs_per_sec)`, which is at least 1 (hence nonzero) for every
configuration value, including zero and negative ones, and the resulting
interval is a well-defined nonnegative duration. -/
theorem rate_divisor_positive (n : Int) :
    1 ≤ goMax 1 n ∧ goMax 1 n ≠ 0 ∧ msgInterval n = nsPerSec / goMax 1 n
    ∧ 0 ≤ msgInterval n := by
  have h1 : 1 ≤ goMax 1 n := by
    unfold goMax
    split <;> omega
  refine ⟨h1, by omega, rfl, ?_⟩
  unfold msgInterval nsPerSec
  exact Int.ediv_nonneg (by norm_num) (by omega)

/-- Every character admitted by `nickChar` is ASCII, hence one UTF-8 byte. -/
theorem charBytes_of_nickChar {c : Char} (h : nickChar c = true) : charBytes c = 1 := by
  have hlt : c.val < 0x80 := by
    simp only [nickChar, Bool.or_eq_true, Bool.and_eq_true, decide_eq_true_eq] at h
    rcases h with ((⟨_, h2⟩ | ⟨_, h2⟩) | ⟨_, h2⟩) | h2
    · have h3 : c.val.toNat ≤ 122 := h2
      show c.val.toNat < 128
      omega
    · have h3 : c.val.toNat ≤ 90 := h2
      show c.val.toNat < 128
      omega
    · have h3 : c.val.toNat ≤ 57 := h2
      show c.val.toNat < 128
      omega
    · subst h2
      decide
  simp [charBytes, hlt]

/-- On all-`nickChar` strings the Go byte length is the character count. -/
theorem byteLen_eq_length_of_all {n : List Char} (h : n.all nickChar = true) :
    byteLen n = n.length := by
  induction n with
  | nil => rfl
  | cons c cs ih =>
    simp only [List.all_cons, Bool.and_eq_true] at h
    have hb : byteLen (c :: cs) = charBytes c + byteLen cs := by simp [byteLen]
    rw [hb, charBytes_of_nickChar h.1, ih h.2, List.length_cons]
    omega

/-- Lemma: `ValidNick` decides exactly the 3–20 character, letters/digits/underscore
policy. -/
theorem validNick_iff (n : List Char) :
    ValidNick n = true ↔ 3 ≤ n.length ∧ n.length ≤ 20 ∧ n.all nickChar = true := by
  constructor
  · intro h
    unfold ValidNick at h
    split at h
    · exact absurd h (by simp)
    · next hcond =>
      simp only [Bool.or_eq_true, decide_eq_true_eq, not_or] at hcond
      have hlen := byteLen_eq_length_of_all h
      refine ⟨?_, ?_, h⟩ <;> omega
  · rintro ⟨h3, h20, hall⟩
    have hlen := byteLen_eq_length_of_all hall
    unfold ValidNick
    split
    · next hcond =>
      simp only [Bool.or_eq_true, decide_eq_true_eq] at hcond
      omega
    · exact hall

/-- Claim C6: in the `AwaitingHello` state the server writes exactly the one
line `ERROR 100` and closes if and only if the first line was read
successfully but is not a `HELLO` command with a valid nickname; and
`ValidNick` holds exactly of 3–20 character strings of ASCII letters, digits
and underscores. -/
theorem handshake_error100 (clients : List Char → Option ClientM) (motd : List Char)
    (r : Nat) (res : Except TErr (List Char)) (n : List Char) :
    (((awaitHello clients motd r res).outputs = ["ERROR 100".data]
        ∧ (awaitHello clients motd r res).closed = true)
      ↔ ∃ line, res = .ok line
          ∧ ((ParseCommand line).1 ≠ "HELLO".data
              ∨ ValidNick (ParseCommand line).2 = false))
    ∧ (ValidNick n = true ↔ 3 ≤ n.length ∧ n.length ≤ 20 ∧ n.all nickChar = true) := by
  refine ⟨?_, validNick_iff n⟩
  constructor
  · rintro ⟨ho, -⟩
    match res with
    | .error e => simp [awaitHello] at ho
    | .ok line =>
      refine ⟨line, rfl, ?_⟩
      by_cases hrej : (ParseCommand line).1 ≠ "HELLO".data ∨ ¬ ValidNick (ParseCommand line).2
      · rcases hrej with h | h
        · exact Or.inl h
        · exact Or.inr (by simpa using h)
      · exfalso
        simp only [awaitHello, if_neg hrej] at ho
        have hhead := congrArg List.head? ho
        simp at hhead
  · rintro ⟨line, rfl, hbad⟩
    have hrej : (ParseCommand line).1 ≠ "HELLO".data ∨ ¬ ValidNick (ParseCommand line).2 := by
      rcases hbad with h | h
      · exact Or.inl h
      · exact Or.inr (by simp [h])
    simp only [awaitHello]
    split
    · exact ⟨rfl, rfl⟩
    · next hfalse => exact absurd hrej hfalse

/-- Witness for `handshake_error100`: `alice` is a valid nickname, and a
non-`HELLO` first line is answered with exactly `ERROR 100` and a close. -/
theorem handshake_error100_witness :
    ValidNick "alice".data = true :=
  (handshake_error100 clientsBobOnly [] 0 (.error .eof) "alice".data).2.mpr (by decide)

/-- Invariant of slot traces: the stored count of every address equals the
number of outstanding reservations, hence is nonnegative and at most the
limit. -/
theorem slotReach_inv {maxPer : Int} (hm : 0 ≤ maxPer) {counts : List Char → Int}
    {held : List Char → Nat} (hr : SlotReach maxPer counts held) (a : List Char) :
    counts a = (held a : Int) ∧ 0 ≤ counts a ∧ counts a ≤ maxPer := by
  induction hr with
  | init => exact ⟨rfl, le_refl 0, hm⟩
  | @reserve counts held b hprev ih =>
    by_cases hge : counts b ≥ maxPer
    · simp only [tryReserveSlot, if_pos hge]
      simpa using ih
    · simp only [tryReserveSlot, if_neg hge]
      obtain ⟨ih1, ih2, ih3⟩ := ih
      by_cases hab : a = b
      · subst hab
        simp only [if_pos rfl, true_and, if_pos trivial]
        push_cast
        constructor
        · omega
        · omega
      · simp only [if_neg hab, true_and]
        exact ⟨ih1, ih2, ih3⟩
  | @release counts held b hprev hpos ih =>
    obtain ⟨ih1, ih2, ih3⟩ := ih
    by_cases hab : a = b
    · subst hab
      simp [releaseSlot]
      omega
    · simp only [releaseSlot, if_neg hab]
      exact ⟨ih1, ih2, ih3⟩

/-- Claim C7: in every state reachable by matched reserve/release pairs and
for every address, the connection count is between 0 and `max_conns_per_ip`
(assuming the nonnegative limit `loadConfig` guarantees); a reservation at the
limit or beyond leaves the counts untouched and fails — `handle` then closes
the connection with no protocol interaction — while below the limit it
increments exactly that address's count and succeeds. -/
theorem slot_invariant (maxPer : Int) (hm : 0 ≤ maxPer) {counts : List Char → Int}
    {held : List Char → Nat} (hr : SlotReach maxPer counts held) (a : List Char) :
    (0 ≤ counts a ∧ counts a ≤ maxPer)
    ∧ (maxPer ≤ counts a → tryReserveSlot counts maxPer a = (counts, false))
    ∧ (counts a < maxPer →
        (tryReserveSlot counts maxPer a).1 a = counts a + 1
        ∧ (tryReserveSlot counts maxPer a).2 = true) := by
  obtain ⟨-, h0, hle⟩ := slotReach_inv hm hr a
  refine ⟨⟨h0, hle⟩, ?_, ?_⟩
  · intro hge
    simp [tryReserveSlot, hge]
  · intro hlt
    simp [tryReserveSlot, Int.not_le.mpr hlt]

/-- Witness for `slot_invariant` at the initial state with limit 4. -/
theorem slot_invariant_witness :
    0 ≤ zeroCounts "9.9.9.9".data ∧ zeroCounts "9.9.9.9".data ≤ 4 :=
  (slot_invariant 4 (by decide)
    (show SlotReach 4 zeroCounts zeroHeld from SlotReach.init) "9.9.9.9".data).1

/-- Claim C8 (counterexample): releasing a slot for an address whose count is
already 0 stores −1 — the decrement in `disconnect` has no floor at 0. -/
theorem release_floor_cx :
    (disconnect regZero clientGhost).ipCounts "1.2.3.4".data = -1
    ∧ (disconnect regZero clientGhost).ipCounts "1.2.3.4".data < 0 :=
  ⟨rfl, by decide⟩

/-- Claim C8 (amended): the slot release in `disconnect` decrements the
client's address count by exactly one, unconditionally and with no floor; the
count stays nonnegative only when it was positive before the release. -/
theorem release_decrement (reg : Registry) (c : ClientM) :
    (disconnect reg c).ipCounts c.ip = reg.ipCounts c.ip - 1
    ∧ (0 < reg.ipCounts c.ip → 0 ≤ (disconnect reg c).ipCounts c.ip) := by
  constructor
  · simp [disconnect, releaseSlot]
  · intro h
    simp [disconnect, releaseSlot]
    omega

/-- Witness for `release_decrement` on a registry whose counts are all 1. -/
theorem release_decrement_witness :
    0 ≤ (disconnect regOne clientGhost).ipCounts clientGhost.ip :=
  (release_decrement regOne clientGhost).2 (by decide)

/-- Claim C10: `disconnect` removes at most the registry entry keyed by the
disconnecting client's own nickname and decrements only that client's source
address count, leaving every other nickname's entry and every other address's
count unchanged; when the client's nickname is not a key (in particular the
empty nickname of a client whose handshake never completed), the clients map
is left entirely unchanged while the address slot is still released. -/
theorem disconnect_frame (reg : Registry) (c : ClientM) :
    (∀ k, k ≠ c.nick → (disconnect reg c).clients k = reg.clients k)
    ∧ (∀ a, a ≠ c.ip → (disconnect reg c).ipCounts a = reg.ipCounts a)
    ∧ (disconnect reg c).clients c.nick = none
    ∧ (disconnect reg c).ipCounts c.ip = reg.ipCounts c.ip - 1
    ∧ (reg.clients c.nick = none →
        ∀ k, (disconnect reg c).clients k = reg.clients k) := by
  refine ⟨?_, ?_, ?_, ?_, ?_⟩
  · intro k hk
    simp [disconnect, hk]
  · intro a ha
    simp [disconnect, releaseSlot, ha]
  · simp [disconnect]
  · simp [disconnect, releaseSlot]
  · intro hnone k
    by_cases hk : k = c.nick
    · subst hk
      simp [disconnect, hnone]
    · simp [disconnect, hk]

/-- Witness for `disconnect_frame`: disconnecting the unregistered
`clientGhost` from the empty registry changes no client entry. -/
theorem disconnect_frame_witness :
    (disconnect regZero clientGhost).clients "bob".data = regZero.clients "bob".data :=
  (disconnect_frame regZero clientGhost).2.2.2.2 rfl "bob".data
